import Mathlib

/-!
Verification of the Streamlit demo-chatbot repository
(agentic-RAG workflow, memory manager, MCP agent error handling).

Python code is shallowly embedded: pure functions become Lean functions,
external services (FAISS retriever, OpenAI LLM, LangMem store, MCP agent)
become function parameters, exceptions become `Except`, and Python `dict`
states become structures.
-/

namespace LLMBootcamp

/-! ## Python string primitives -/

/-- Boolean prefix test on character lists (`needle` is a prefix of `hay`). -/
def isPrefC : List Char → List Char → Bool
  | [], _ => true
  | _ :: _, [] => false
  | a :: as, b :: bs => a == b && isPrefC as bs

/-- Boolean substring test on character lists: Python's `needle in hay`. -/
def isSubC (w : List Char) : List Char → Bool
  | [] => w.isEmpty
  | b :: bs => isPrefC w (b :: bs) || isSubC w bs

/-- Python `w in q` on strings (substring containment). -/
def strContains (q w : String) : Bool := isSubC w.data q.data

/-- Spec-side notion: `w` occurs as a contiguous substring of `q`. -/
def SubstrP (w q : String) : Prop := ∃ l r, l ++ w.data ++ r = q.data

/-- Python `str.lower()` (ASCII-relevant part, via `Char.toLower`). -/
def pyLower (s : String) : String := String.map Char.toLower s

/-- Python whitespace test for the characters relevant to `str.strip()`. -/
def pyIsSpace (c : Char) : Bool :=
  c == ' ' || c == '\t' || c == '\n' || c == '\r' || c == Char.ofNat 11 || c == Char.ofNat 12

/-- Python `not s.strip()`: `s` is empty or consists only of whitespace. -/
def stripEmpty (s : String) : Bool := s.data.all pyIsSpace

/-- Python slice `xs[-m:]` for a natural `m` (note `xs[-0:]` is all of `xs`). -/
def pyLastSlice (m : Nat) (xs : List α) : List α :=
  if m = 0 then xs else xs.drop (xs.length - m)

/-- The last `m` elements of a list (the mathematical "most recent suffix"). -/
def lastN (m : Nat) (xs : List α) : List α := xs.drop (xs.length - m)

theorem isPrefC_iff (w l : List Char) : isPrefC w l = true ↔ ∃ r, w ++ r = l := by
  induction w generalizing l with
  | nil => simp [isPrefC]
  | cons a as ih =>
    cases l with
    | nil => simp [isPrefC]
    | cons b bs =>
      simp only [isPrefC, Bool.and_eq_true, beq_iff_eq, ih]
      constructor
      · rintro ⟨rfl, r, rfl⟩; exact ⟨r, rfl⟩
      · rintro ⟨r, h⟩
        injection h with h1 h2
        exact ⟨h1, r, h2⟩

theorem isSubC_iff (w l : List Char) : isSubC w l = true ↔ ∃ p r, p ++ w ++ r = l := by
  induction l with
  | nil =>
    simp only [isSubC, List.isEmpty_iff]
    constructor
    · rintro rfl; exact ⟨[], [], rfl⟩
    · rintro ⟨p, r, h⟩
      rcases List.append_eq_nil.mp ((List.append_eq_nil).mp h).1 with ⟨_, h2⟩
      exact h2
  | cons b bs ih =>
    simp only [isSubC, Bool.or_eq_true, isPrefC_iff, ih]
    constructor
    · rintro (⟨r, h⟩ | ⟨p, r, h⟩)
      · exact ⟨[], r, by simpa using h⟩
      · exact ⟨b :: p, r, by simp [h]⟩
    · rintro ⟨p, r, h⟩
      cases p with
      | nil => exact Or.inl ⟨r, by simpa using h⟩
      | cons x xs =>
        injection h with h1 h2
        exact Or.inr ⟨xs, r, h2⟩

theorem strContains_iff (q w : String) : strContains q w = true ↔ SubstrP w q := by
  simpa [strContains, SubstrP] using isSubC_iff w.data q.data

/-! ## Agentic RAG graph (`pages/3_Chat_with_your_Data.py`, `langchain_helpers.py`)

The `RAGState` TypedDict and the three node closures of
`build_simple_agentic_rag`.  The FAISS retriever and the chat LLM are
external services, passed as function parameters. -/

/-- LangChain `Document`; the nodes only use `page_content`. -/
structure Document where
  page_content : String
deriving DecidableEq, Repr

/-- The `RAGState` TypedDict: question, mode, documents, generation. -/
structure RAGState where
  question : String
  mode : String
  documents : List Document
  generation : String
deriving DecidableEq, Repr

/-- `SUMMARY_HINTS` tuple from `build_simple_agentic_rag`. -/
def SUMMARY_HINTS : List String :=
  ["summarize", "summary", "overview", "key points", "bullet", "synthesize"]

/-- `FACT_HINTS` tuple from `build_simple_agentic_rag`. -/
def FACT_HINTS : List String :=
  ["when", "date", "who", "where", "amount", "total", "price", "figure", "specific", "exact"]

/-- Node `classify_mode`: rule-based summary/fact branch on the lowercased question. -/
def classify_mode (s : RAGState) : RAGState :=
  let q := pyLower s.question
  let mode : String :=
    if SUMMARY_HINTS.any (fun w => strContains q w) && !(FACT_HINTS.any (fun w => strContains q w))
    then "summary"
    else if FACT_HINTS.any (fun w => strContains q w) then "fact"
    else if strContains q "summary" || strContains q "summarize" then "summary" else "fact"
  { s with mode := mode }

/-- Node `retrieve`: invoke the retriever on the question and keep `docs[:k]`,
with `k = 8` in summary mode and `k = 3` otherwise. -/
def retrieveNode (retriever : String → List Document) (s : RAGState) : RAGState :=
  let q := s.question
  let k : Nat := if s.mode == "summary" then 8 else 3
  let docs := retriever q
  { s with documents := docs.take k }

/-- Which of the two generation prompts an LLM call uses. -/
inductive PromptKind | summary | fact
deriving DecidableEq, Repr

/-- `"\n\n---\n\n".join(d.page_content for d in state.get("documents", []))`. -/
def joinCtx (docs : List Document) : String :=
  String.intercalate "\n\n---\n\n" (docs.map Document.page_content)

/-- The hard-coded fallback answer used when the joined context is blank. -/
def FALLBACK : String := "I couldn't find enough information in the documents to answer that."

/-- Node `generate`, instrumented: returns the new state together with the
prompt the LLM was invoked with (`none` when the LLM is not called).  The
LLM is the external parameter `llm prompt question context`. -/
def generateNode (llm : PromptKind → String → String → String) (s : RAGState) :
    RAGState × Option PromptKind :=
  let ctx := joinCtx s.documents
  if stripEmpty ctx then ({ s with generation := FALLBACK }, none)
  else if s.mode == "summary" then
    ({ s with generation := llm PromptKind.summary s.question ctx }, some PromptKind.summary)
  else
    ({ s with generation := llm PromptKind.fact s.question ctx }, some PromptKind.fact)

/-! ### LangGraph `StateGraph` execution

`build_simple_agentic_rag` assembles a `StateGraph`, adds the three nodes,
the entry point and linear edges, and compiles it.  The compiled graph's
`invoke` (LangGraph library behaviour) starts at the entry point, runs each
node on the current state, follows the unique outgoing edge, and stops at
`END`; we model it with explicit fuel and record the executed node names. -/

/-- A state graph with named nodes, directed edges and an entry point. -/
structure RAGGraph where
  nodes : List (String × (RAGState → RAGState))
  edges : List (String × String)
  entry : String

/-- LangGraph's `END` sentinel. -/
def ENDNODE : String := "__end__"

/-- Look up a node function by name. -/
def findNode (g : RAGGraph) (n : String) : Option (RAGState → RAGState) :=
  (g.nodes.find? (fun p => p.1 == n)).map Prod.snd

/-- The unique outgoing edge of a node, if any. -/
def nextEdge (g : RAGGraph) (n : String) : Option String :=
  (g.edges.find? (fun p => p.1 == n)).map Prod.snd

/-- Fueled execution from a node name: apply the node, follow its edge,
stop at `END`; returns the trace of executed node names and the final state. -/
def runGraph (g : RAGGraph) : Nat → String → RAGState → Option (List String × RAGState)
  | 0, _, _ => none
  | fuel + 1, cur, s =>
    if cur == ENDNODE then some ([], s)
    else
      match findNode g cur with
      | none => none
      | some f =>
        match nextEdge g cur with
        | none => none
        | some nxt =>
          match runGraph g fuel nxt (f s) with
          | none => none
          | some (tr, out) => some (cur :: tr, out)

/-- `compiled_graph.invoke`: run from the entry point with enough fuel. -/
def graphInvoke (g : RAGGraph) (s : RAGState) : Option (List String × RAGState) :=
  runGraph g (g.nodes.length + 1) g.entry s

/-- `build_simple_agentic_rag(retriever, llm)`: the three nodes, entry point
`classify_mode`, and edges `classify_mode → retrieve → generate → END`. -/
def build_simple_agentic_rag (retriever : String → List Document)
    (llm : PromptKind → String → String → String) : RAGGraph where
  nodes := [("classify_mode", classify_mode),
            ("retrieve", retrieveNode retriever),
            ("generate", fun s => (generateNode llm s).1)]
  edges := [("classify_mode", "retrieve"), ("retrieve", "generate"), ("generate", ENDNODE)]
  entry := "classify_mode"

theorem any_contains_eq_false {hs : List String} {q : String}
    (h : hs.any (fun w => strContains q w) = false) {w : String} (hw : w ∈ hs) :
    strContains q w = false := by
  have := List.any_eq_false.mp h w hw
  exact Bool.not_eq_true _ ▸ (by simpa using this)

/-- C1: invoking the compiled agentic-RAG graph equals running
`classify_mode`, then `retrieve`, then `generate`, in that order, with no
other node executed and execution ending after `generate`. -/
theorem rag_graph_is_pipeline (retriever : String → List Document)
    (llm : PromptKind → String → String → String) (s : RAGState) :
    graphInvoke (build_simple_agentic_rag retriever llm) s =
      some (["classify_mode", "retrieve", "generate"],
        (generateNode llm (retrieveNode retriever (classify_mode s))).1) := rfl

/-- C2: `classify_mode` yields mode `"summary"` iff the lowercased question
contains a summary hint and no fact hint, and `"fact"` in every other case;
the remaining state fields are unchanged. -/
theorem classify_mode_spec (s : RAGState) :
    (((classify_mode s).mode = "summary") ↔
      ((∃ w ∈ SUMMARY_HINTS, SubstrP w (pyLower s.question)) ∧
        ∀ w ∈ FACT_HINTS, ¬ SubstrP w (pyLower s.question))) ∧
    (((classify_mode s).mode = "fact") ↔
      ¬ ((∃ w ∈ SUMMARY_HINTS, SubstrP w (pyLower s.question)) ∧
        ∀ w ∈ FACT_HINTS, ¬ SubstrP w (pyLower s.question))) ∧
    (classify_mode s).question = s.question ∧
    (classify_mode s).documents = s.documents ∧
    (classify_mode s).generation = s.generation := by
  have hprop : ((∃ w ∈ SUMMARY_HINTS, SubstrP w (pyLower s.question)) ∧
      ∀ w ∈ FACT_HINTS, ¬ SubstrP w (pyLower s.question)) ↔
      (SUMMARY_HINTS.any (fun w => strContains (pyLower s.question) w) = true ∧
        FACT_HINTS.any (fun w => strContains (pyLower s.question) w) = false) := by
    simp [List.any_eq_true, List.any_eq_false, strContains_iff]
  refine ⟨?_, ?_, rfl, rfl, rfl⟩ <;> rw [hprop] <;>
    rcases hS : SUMMARY_HINTS.any (fun w => strContains (pyLower s.question) w) with _ | _ <;>
    rcases hF : FACT_HINTS.any (fun w => strContains (pyLower s.question) w) with _ | _
  · have h1 : strContains (pyLower s.question) "summary" = false :=
      any_contains_eq_false hS (by simp [SUMMARY_HINTS])
    have h2 : strContains (pyLower s.question) "summarize" = false :=
      any_contains_eq_false hS (by simp [SUMMARY_HINTS])
    simp [classify_mode, hS, hF, h1, h2]
  · simp [classify_mode, hS, hF]
  · simp [classify_mode, hS, hF]
  · simp [classify_mode, hS, hF]
  · have h1 : strContains (pyLower s.question) "summary" = false :=
      any_contains_eq_false hS (by simp [SUMMARY_HINTS])
    have h2 : strContains (pyLower s.question) "summarize" = false :=
      any_contains_eq_false hS (by simp [SUMMARY_HINTS])
    simp [classify_mode, hS, hF, h1, h2]
  · simp [classify_mode, hS, hF]
  · simp [classify_mode, hS, hF]
  · simp [classify_mode, hS, hF]

/-- C3: the `retrieve` node stores exactly the first `min(k, length)` documents
of the retriever's result (`k = 8` for summary mode, `k = 3` for fact mode);
the stored list is a prefix of the retriever's result, of length at most `k`,
and the other state fields are unchanged. -/
theorem retrieve_spec (retriever : String → List Document) (s : RAGState)
    (h : s.mode = "summary" ∨ s.mode = "fact") :
    (retrieveNode retriever s).documents =
      (retriever s.question).take (if s.mode = "summary" then 8 else 3) ∧
    (retrieveNode retriever s).documents.length =
      min (if s.mode = "summary" then 8 else 3) (retriever s.question).length ∧
    (retrieveNode retriever s).documents.length ≤ (if s.mode = "summary" then 8 else 3) ∧
    (∃ t, (retrieveNode retriever s).documents ++ t = retriever s.question) ∧
    (retrieveNode retriever s).question = s.question ∧
    (retrieveNode retriever s).mode = s.mode ∧
    (retrieveNode retriever s).generation = s.generation := by
  have hdocs : (retrieveNode retriever s).documents =
      (retriever s.question).take (if s.mode = "summary" then 8 else 3) := by
    rcases h with h | h <;> simp [retrieveNode, h]
  refine ⟨hdocs, ?_, ?_, ?_, rfl, rfl, rfl⟩
  · rw [hdocs]; exact List.length_take _ _
  · rw [hdocs, List.length_take]; exact min_le_left _ _
  · exact ⟨(retriever s.question).drop (if s.mode = "summary" then 8 else 3),
      by rw [hdocs]; exact List.take_append_drop _ _⟩

theorem retrieve_spec_witness :
    ((RAGState.mk "q" "fact" [] "").mode = "summary" ∨
      (RAGState.mk "q" "fact" [] "").mode = "fact") ∧
    (retrieveNode (fun _ => [Document.mk "a", Document.mk "b", Document.mk "c", Document.mk "d"])
        (RAGState.mk "q" "fact" [] "")).documents =
      [Document.mk "a", Document.mk "b", Document.mk "c"] := by
  refine ⟨Or.inr rfl, ?_⟩
  have h := retrieve_spec
    (fun _ => [Document.mk "a", Document.mk "b", Document.mk "c", Document.mk "d"])
    (RAGState.mk "q" "fact" [] "") (Or.inr rfl)
  rw [h.1]; decide

/-- C10: `generate` returns the fallback answer and does not call the LLM when
the documents list is empty or the joined context is blank; otherwise it calls
the LLM once, with the summary prompt exactly in summary mode. -/
theorem generate_spec (llm : PromptKind → String → String → String) (s : RAGState) :
    ((s.documents = [] ∨ stripEmpty (joinCtx s.documents) = true) →
      generateNode llm s = ({ s with generation := FALLBACK }, none)) ∧
    (stripEmpty (joinCtx s.documents) = false →
      generateNode llm s =
        (if s.mode = "summary" then
          ({ s with generation := llm PromptKind.summary s.question (joinCtx s.documents) },
            some PromptKind.summary)
         else
          ({ s with generation := llm PromptKind.fact s.question (joinCtx s.documents) },
            some PromptKind.fact))) := by
  constructor
  · intro h
    have hstrip : stripEmpty (joinCtx s.documents) = true := by
      rcases h with h | h
      · rw [h]; rfl
      · exact h
    simp [generateNode, hstrip]
  · intro h
    by_cases hm : s.mode = "summary"
    · simp [generateNode, h, hm]
    · have hb : (s.mode == "summary") = false := by
        simpa using hm
      simp [generateNode, h, hm, hb]

theorem generate_spec_witness :
    ((RAGState.mk "q" "fact" [] "").documents = [] ∨
      stripEmpty (joinCtx (RAGState.mk "q" "fact" [] "").documents) = true) ∧
    generateNode (fun _ _ _ => "ans") (RAGState.mk "q" "fact" [] "") =
      (RAGState.mk "q" "fact" [] FALLBACK, none) ∧
    stripEmpty (joinCtx [Document.mk "hello"]) = false ∧
    generateNode (fun _ _ _ => "ans") (RAGState.mk "q" "fact" [Document.mk "hello"] "") =
      (RAGState.mk "q" "fact" [Document.mk "hello"] "ans", some PromptKind.fact) := by
  refine ⟨Or.inl rfl, ?_, by decide, ?_⟩
  · exact (generate_spec (fun _ _ _ => "ans") (RAGState.mk "q" "fact" [] "")).1 (Or.inl rfl)
  · have h := (generate_spec (fun _ _ _ => "ans")
      (RAGState.mk "q" "fact" [Document.mk "hello"] "")).2 (by decide)
    simpa using h

/-! ## Conversation memory (`memory/conversation_memory.py`)

Messages are Python dicts with `role`, `content` and an optional
`timestamp` key; `datetime.now().isoformat()` is the explicit parameter
`now`. -/

/-- A chat message dict: `role`, `content`, optional `timestamp`. -/
structure PyMsg where
  role : String
  content : String
  timestamp : Option String
deriving DecidableEq, Repr

/-- `if "timestamp" not in message: message["timestamp"] = now`. -/
def stampMsg (now : String) (m : PyMsg) : PyMsg :=
  match m.timestamp with
  | some _ => m
  | none => { m with timestamp := some now }

/-- `ConversationMemory`: session id, `max_messages` bound, stored list. -/
structure ConversationMemory where
  session_id : String
  max_messages : Nat
  messages : List PyMsg
deriving DecidableEq, Repr

/-- `ConversationMemory.add_message`: stamp, append, then keep only
`self.messages[-self.max_messages:]` when the length exceeds the bound. -/
def ConversationMemory.add_message (mem : ConversationMemory) (now : String)
    (msg : PyMsg) : ConversationMemory :=
  let msg' := stampMsg now msg
  let ms := mem.messages ++ [msg']
  { mem with messages :=
      if mem.max_messages < ms.length then pyLastSlice mem.max_messages ms else ms }

/-- `ConversationMemory.clear_memory`. -/
def ConversationMemory.clear_memory (mem : ConversationMemory) : ConversationMemory :=
  { mem with messages := [] }

/-- A context entry dict as assembled by the memory classes.  The
`relevance_score` and `key` keys exist only on semantic entries; `none`
models an absent key (Python dict equality distinguishes key sets). -/
structure CtxEntry where
  role : String
  content : String
  timestamp : Option String
  type : String
  relevance_score : Option String
  key : Option String
deriving DecidableEq, Repr

/-- `ConversationMemory.get_relevant_context`: the most recent messages
(`self.messages[-limit:] if limit <= len(self.messages) else self.messages`),
formatted as conversation context entries.  The query is unused by the code. -/
def ConversationMemory.get_relevant_context (mem : ConversationMemory)
    (_query : String) (limit : Nat) : List CtxEntry :=
  let recent := if limit ≤ mem.messages.length then pyLastSlice limit mem.messages
                else mem.messages
  recent.map fun m =>
    { role := m.role, content := m.content, timestamp := m.timestamp,
      type := "conversation", relevance_score := none, key := none }

/-- Fold a sequence of `(now, message)` pairs through `add_message`. -/
def addAll (mem : ConversationMemory) (adds : List (String × PyMsg)) : ConversationMemory :=
  adds.foldl (fun m p => m.add_message p.1 p.2) mem

/-- The messages of a sequence of adds, each stamped at its own insertion. -/
def stampedList (adds : List (String × PyMsg)) : List PyMsg :=
  adds.map (fun p => stampMsg p.1 p.2)

/-! ### `lastN` algebra -/

theorem lastN_all {α : Type} {m : Nat} {l : List α} (h : l.length ≤ m) : lastN m l = l := by
  rw [lastN, Nat.sub_eq_zero_of_le h, List.drop_zero]

theorem lastN_length {α : Type} (m : Nat) (l : List α) :
    (lastN m l).length = min m l.length := by
  rw [lastN, List.length_drop]; omega

/-- For `m ≥ 1`, the conditional trim of `add_message` is exactly `lastN m`. -/
theorem trim_eq_lastN {α : Type} (m : Nat) (hm : 1 ≤ m) (l : List α) :
    (if m < l.length then pyLastSlice m l else l) = lastN m l := by
  by_cases h : m < l.length
  · rw [if_pos h, pyLastSlice, if_neg (by omega)]; rfl
  · rw [if_neg h, lastN_all (by omega)]

/-- Trimming to the last `m` is stable under later appends. -/
theorem lastN_append_lastN {α : Type} (m : Nat) (s t : List α) :
    lastN m (lastN m s ++ t) = lastN m (s ++ t) := by
  by_cases h : s.length ≤ m
  · rw [lastN_all h]
  · have hm : m ≤ s.length := by omega
    have ha : (lastN m s).length = m := by rw [lastN_length]; omega
    conv_lhs => rw [lastN, List.drop_append_eq_append_drop, ha]
    conv_rhs => rw [lastN, List.drop_append_eq_append_drop]
    rw [List.length_append, ha, List.length_append, lastN, List.drop_drop]
    congr 2 <;> omega

/-- One `add_message` step preserves the "last `m` of everything added"
description of the stored list (for `m ≥ 1`). -/
theorem add_message_lastN (mem : ConversationMemory) (hm : 1 ≤ mem.max_messages)
    (s : List PyMsg) (hs : mem.messages = lastN mem.max_messages s)
    (now : String) (msg : PyMsg) :
    (mem.add_message now msg).messages =
      lastN mem.max_messages (s ++ [stampMsg now msg]) := by
  show (if mem.max_messages < (mem.messages ++ [stampMsg now msg]).length
        then pyLastSlice mem.max_messages (mem.messages ++ [stampMsg now msg])
        else mem.messages ++ [stampMsg now msg]) = _
  rw [trim_eq_lastN _ hm, hs, lastN_append_lastN]

/-- Running a whole sequence of adds from a list described by `lastN`. -/
theorem addAll_lastN (adds : List (String × PyMsg)) (mem : ConversationMemory)
    (hm : 1 ≤ mem.max_messages) (s : List PyMsg)
    (hs : mem.messages = lastN mem.max_messages s) :
    (addAll mem adds).messages = lastN mem.max_messages (s ++ stampedList adds) ∧
    (addAll mem adds).max_messages = mem.max_messages := by
  induction adds generalizing mem s with
  | nil => simpa [addAll, stampedList] using hs
  | cons p rest ih =>
    have hstep := add_message_lastN mem hm s hs p.1 p.2
    have hmax : (mem.add_message p.1 p.2).max_messages = mem.max_messages := rfl
    have := ih (mem.add_message p.1 p.2) (by rw [hmax]; exact hm)
      (s ++ [stampMsg p.1 p.2]) (by rw [hmax]; exact hstep)
    rw [addAll] at this ⊢
    simp only [List.foldl_cons] at this ⊢
    rw [hmax] at this
    simpa [stampedList, List.append_assoc] using this

theorem stampMsg_isSome (now : String) (m : PyMsg) : (stampMsg now m).timestamp.isSome := by
  obtain ⟨r, c, ts⟩ := m
  cases ts <;> simp [stampMsg]

/-- C9 (amended): starting from a fresh `ConversationMemory` with
`max_messages ≥ 1`, after any sequence of `add_message` calls the stored list
is exactly the last `max_messages` of the stamped messages in insertion
order, hence bounded; every stored message carries a timestamp; and
`clear_memory` resets the list to empty. -/
theorem conversation_memory_invariant (sid : String) (maxM : Nat) (hm : 1 ≤ maxM)
    (adds : List (String × PyMsg)) :
    (addAll ⟨sid, maxM, []⟩ adds).messages = lastN maxM (stampedList adds) ∧
    (addAll ⟨sid, maxM, []⟩ adds).messages.length ≤ maxM ∧
    (∀ m ∈ (addAll ⟨sid, maxM, []⟩ adds).messages, m.timestamp.isSome) ∧
    ((addAll ⟨sid, maxM, []⟩ adds).clear_memory).messages = [] := by
  have h := addAll_lastN adds ⟨sid, maxM, []⟩ hm [] (by simp [lastN])
  have hmsg : (addAll ⟨sid, maxM, []⟩ adds).messages = lastN maxM (stampedList adds) := by
    simpa using h.1
  refine ⟨hmsg, ?_, ?_, rfl⟩
  · rw [hmsg, lastN_length]; omega
  · intro m hmem
    rw [hmsg] at hmem
    have hmem2 : m ∈ stampedList adds := List.mem_of_mem_drop hmem
    rw [stampedList, List.mem_map] at hmem2
    obtain ⟨p, _, hp⟩ := hmem2
    rw [← hp]
    exact stampMsg_isSome p.1 p.2

/-- C9 counterexample: with `max_messages = 0` the Python slice
`messages[-0:]` keeps everything, so one `add_message` already leaves the
list longer than `max_messages`. -/
theorem conversation_bound_cex :
    ((ConversationMemory.mk "s" 0 []).add_message "t0" (PyMsg.mk "user" "hi" none)).messages =
      [PyMsg.mk "user" "hi" (some "t0")] ∧
    ¬ (((ConversationMemory.mk "s" 0 []).add_message "t0"
          (PyMsg.mk "user" "hi" none)).messages.length ≤
        (ConversationMemory.mk "s" 0 []).max_messages) := by
  decide

theorem conversation_memory_invariant_witness :
    (1 : Nat) ≤ 2 ∧
    (addAll ⟨"s", 2, []⟩
        [("t1", PyMsg.mk "user" "a" none), ("t2", PyMsg.mk "user" "b" none),
         ("t3", PyMsg.mk "user" "c" none)]).messages =
      [PyMsg.mk "user" "b" (some "t2"), PyMsg.mk "user" "c" (some "t3")] := by
  refine ⟨by decide, ?_⟩
  have h := conversation_memory_invariant "s" 2 (by decide)
    [("t1", PyMsg.mk "user" "a" none), ("t2", PyMsg.mk "user" "b" none),
     ("t3", PyMsg.mk "user" "c" none)]
  rw [h.1]; decide

/-! ## Memory manager (`memory/memory_manager.py`)

The semantic memory's substance (LangMem store, extraction agent) is an
external service: its state is an abstract type `SemMem`, its
`add_message` is the parameter `semAdd` and its `get_relevant_context` the
parameter `semSearch`. -/

/-- `MemoryManager`: the `self.memories` dict holds a `"conversation"` entry
when enabled and a `"semantic"` entry when enabled and successfully
initialized. -/
structure MemoryManager (SemMem : Type) where
  session_id : String
  conversation : Option ConversationMemory
  semantic : Option SemMem

/-- `MemoryManager.__init__`: conversation memory (with default bound 50)
when enabled; semantic memory when enabled, an API key given, and the
`SemanticMemory` constructor (outcome `semInit`) does not raise. -/
def mkMemoryManager {SemMem : Type} (session_id : String)
    (enable_conversation enable_semantic api_key_nonempty : Bool)
    (semInit : Except String SemMem) : MemoryManager SemMem where
  session_id := session_id
  conversation := if enable_conversation then some ⟨session_id, 50, []⟩ else none
  semantic :=
    if enable_semantic && api_key_nonempty then
      match semInit with
      | Except.ok sm => some sm
      | Except.error _ => none
    else none

/-- `MemoryManager.add_message`: forward the message dict to every memory in
`self.memories` (conversation first, then semantic).  The conversation
memory mutates the shared dict, stamping a timestamp, so when conversation
memory is present the semantic memory receives the stamped message. -/
def MemoryManager.add_message {SemMem : Type} (semAdd : SemMem → PyMsg → SemMem)
    (now : String) (mm : MemoryManager SemMem) (msg : PyMsg) : MemoryManager SemMem :=
  match mm.conversation with
  | some c =>
      { mm with
        conversation := some (c.add_message now msg),
        semantic := mm.semantic.map (fun sm => semAdd sm (stampMsg now msg)) }
  | none => { mm with semantic := mm.semantic.map (fun sm => semAdd sm msg) }

/-- `MemoryManager.get_unified_context`: conversation context first, then
each semantic context entry appended only if not already present. -/
def MemoryManager.get_unified_context {SemMem : Type}
    (semSearch : SemMem → String → Nat → List CtxEntry) (mm : MemoryManager SemMem)
    (query : String) (conversation_limit semantic_limit : Nat) : List CtxEntry :=
  let base : List CtxEntry :=
    match mm.conversation with
    | some c => c.get_relevant_context query conversation_limit
    | none => []
  match mm.semantic with
  | some sm =>
      (semSearch sm query semantic_limit).foldl
        (fun acc ctx => if ctx ∈ acc then acc else acc ++ [ctx]) base
  | none => base

/-- Spec-side description of the fan-in: the semantic entries that are not
already present in the accumulated list, in order. -/
def newEntries {α : Type} [DecidableEq α] (acc : List α) : List α → List α
  | [] => []
  | c :: cs => if c ∈ acc then newEntries acc cs else c :: newEntries (acc ++ [c]) cs

theorem foldl_dedup_eq {α : Type} [DecidableEq α] (xs acc : List α) :
    xs.foldl (fun a c => if c ∈ a then a else a ++ [c]) acc = acc ++ newEntries acc xs := by
  induction xs generalizing acc with
  | nil => simp [newEntries]
  | cons c cs ih =>
    by_cases h : c ∈ acc
    · simp [newEntries, h, ih]
    · simp only [List.foldl_cons, newEntries, if_neg h, ih (acc ++ [c])]
      simp

theorem newEntries_length_le {α : Type} [DecidableEq α] (acc xs : List α) :
    (newEntries acc xs).length ≤ xs.length := by
  induction xs generalizing acc with
  | nil => simp [newEntries]
  | cons c cs ih =>
    by_cases h : c ∈ acc
    · simp only [newEntries, if_pos h]
      exact le_trans (ih acc) (by simp)
    · simp only [newEntries, if_neg h, List.length_cons]
      exact Nat.succ_le_succ (ih (acc ++ [c]))

/-- `MemoryManager.get_comprehensive_context`: for each `(memory_type,
memory)` in dict order, attempt `memory.get_relevant_context` once (the
parameter carries that single attempt's outcome); a raise is caught and the
type is mapped to `[]`.  The second component logs, in order, the memory
types whose retrieval was invoked. -/
def get_comprehensive_context (mems : List (String × Except String (List CtxEntry))) :
    List (String × List CtxEntry) × List String :=
  mems.foldl
    (fun acc p =>
      (acc.1 ++ [(p.1, match p.2 with | Except.ok c => c | Except.error _ => [])],
       acc.2 ++ [p.1]))
    ([], [])

theorem get_comprehensive_context_aux
    (mems : List (String × Except String (List CtxEntry)))
    (a : List (String × List CtxEntry)) (b : List String) :
    mems.foldl
      (fun acc p =>
        (acc.1 ++ [(p.1, match p.2 with | Except.ok c => c | Except.error _ => [])],
         acc.2 ++ [p.1]))
      (a, b) =
    (a ++ mems.map (fun p => (p.1, match p.2 with | Except.ok c => c | Except.error _ => [])),
     b ++ mems.map Prod.fst) := by
  induction mems generalizing a b with
  | nil => simp
  | cons p rest ih =>
    simp only [List.foldl_cons, List.map_cons, ih]
    simp

/-- The conversation part of the unified context (empty when conversation
memory is disabled). -/
def convCtx {SemMem : Type} (mm : MemoryManager SemMem) (query : String)
    (cl : Nat) : List CtxEntry :=
  match mm.conversation with
  | some c => c.get_relevant_context query cl
  | none => []

/-- The semantic part of the unified context (empty when semantic memory is
absent). -/
def semCtx {SemMem : Type} (semSearch : SemMem → String → Nat → List CtxEntry)
    (mm : MemoryManager SemMem) (query : String) (sl : Nat) : List CtxEntry :=
  match mm.semantic with
  | some sm => semSearch sm query sl
  | none => []

theorem get_relevant_context_length_le (c : ConversationMemory) (q : String)
    (cl : Nat) (h : 1 ≤ cl) : (c.get_relevant_context q cl).length ≤ cl := by
  simp only [ConversationMemory.get_relevant_context, List.length_map]
  by_cases hc : cl ≤ c.messages.length
  · rw [if_pos hc, pyLastSlice, if_neg (by omega), List.length_drop]
    omega
  · rw [if_neg hc]
    omega

/-- C4 (amended): `add_message` forwards the message to every enabled
memory, and `get_unified_context` returns the conversation context (at most
`conversation_limit` entries, for `conversation_limit ≥ 1`) followed by the
not-yet-present semantic entries in order (at most `semantic_limit`,
provided the store honours its search limit). -/
theorem memory_manager_fan_spec {SemMem : Type}
    (semAdd : SemMem → PyMsg → SemMem)
    (semSearch : SemMem → String → Nat → List CtxEntry)
    (mm : MemoryManager SemMem) (now query : String) (msg : PyMsg) (cl sl : Nat)
    (hcl : 1 ≤ cl) (hsem : ∀ sm q n, (semSearch sm q n).length ≤ n) :
    (MemoryManager.add_message semAdd now mm msg).conversation =
      mm.conversation.map (fun c => c.add_message now msg) ∧
    (MemoryManager.add_message semAdd now mm msg).semantic =
      mm.semantic.map (fun sm =>
        semAdd sm (if mm.conversation.isSome then stampMsg now msg else msg)) ∧
    MemoryManager.get_unified_context semSearch mm query cl sl =
      convCtx mm query cl ++ newEntries (convCtx mm query cl) (semCtx semSearch mm query sl) ∧
    (convCtx mm query cl).length ≤ cl ∧
    (newEntries (convCtx mm query cl) (semCtx semSearch mm query sl)).length ≤ sl := by
  refine ⟨?_, ?_, ?_, ?_, ?_⟩
  · cases hc : mm.conversation <;>
      simp [MemoryManager.add_message, hc]
  · cases hc : mm.conversation <;>
      simp [MemoryManager.add_message, hc]
  · cases hc : mm.conversation <;> cases hsm : mm.semantic <;>
      simp [MemoryManager.get_unified_context, convCtx, semCtx, hc, hsm,
        foldl_dedup_eq, newEntries]
  · cases hc : mm.conversation with
    | none => simp [convCtx, hc]
    | some c =>
      simp only [convCtx, hc]
      exact get_relevant_context_length_le c query cl hcl
  · refine le_trans (newEntries_length_le _ _) ?_
    cases hsm : mm.semantic with
    | none => simp [semCtx, hsm]
    | some sm =>
      simp only [semCtx, hsm]
      exact hsem sm query sl

/-- C4 counterexample: with `conversation_limit = 0` the Python slice
`messages[-0:]` returns the entire history, so the unified context exceeds
the conversation limit. -/
theorem unified_context_limit_cex :
    MemoryManager.get_unified_context (fun (_ : Unit) _ _ => [])
        ⟨"s", some ⟨"s", 50, [PyMsg.mk "user" "hi" (some "t")]⟩, none⟩ "q" 0 3 =
      [CtxEntry.mk "user" "hi" (some "t") "conversation" none none] ∧
    ¬ ((MemoryManager.get_unified_context (fun (_ : Unit) _ _ => [])
        ⟨"s", some ⟨"s", 50, [PyMsg.mk "user" "hi" (some "t")]⟩, none⟩ "q" 0 3).length ≤ 0) := by
  decide

theorem memory_manager_fan_spec_witness :
    ((1 : Nat) ≤ 2) ∧
    (∀ (sm : Unit) (q : String) (n : Nat),
      ((fun (_ : Unit) (_ : String) (n : Nat) =>
        List.take n [CtxEntry.mk "system" "fact" none "semantic" (some "1.0") (some "k")]) sm q n).length ≤ n) ∧
    MemoryManager.get_unified_context
        (fun (_ : Unit) (_ : String) (n : Nat) =>
          List.take n [CtxEntry.mk "system" "fact" none "semantic" (some "1.0") (some "k")])
        ⟨"s", some ⟨"s", 50, [PyMsg.mk "user" "hi" (some "t")]⟩, some ()⟩ "q" 2 1 =
      [CtxEntry.mk "user" "hi" (some "t") "conversation" none none,
       CtxEntry.mk "system" "fact" none "semantic" (some "1.0") (some "k")] := by
  have hsem : ∀ (sm : Unit) (q : String) (n : Nat),
      ((fun (_ : Unit) (_ : String) (n : Nat) =>
        List.take n [CtxEntry.mk "system" "fact" none "semantic" (some "1.0") (some "k")]) sm q n).length ≤ n := by
    intro _ _ n
    rw [List.length_take]
    exact min_le_left _ _
  refine ⟨by decide, hsem, ?_⟩
  have h := memory_manager_fan_spec (fun (sm : Unit) _ => sm)
    (fun (_ : Unit) (_ : String) (n : Nat) =>
      List.take n [CtxEntry.mk "system" "fact" none "semantic" (some "1.0") (some "k")])
    ⟨"s", some ⟨"s", 50, [PyMsg.mk "user" "hi" (some "t")]⟩, some ()⟩
    "now" "q" (PyMsg.mk "user" "x" none) 2 1 (by decide) hsem
  rw [h.2.2.1]
  decide

/-- C5 (amended): in `get_comprehensive_context` every memory's retrieval is
attempted exactly once, in dict order; a raising memory type is caught and
mapped to the empty-list placeholder while the other types' results are
returned. -/
theorem comprehensive_context_spec (mems : List (String × Except String (List CtxEntry))) :
    (get_comprehensive_context mems).1 =
      mems.map (fun p => (p.1, match p.2 with | Except.ok c => c | Except.error _ => [])) ∧
    (get_comprehensive_context mems).2 = mems.map Prod.fst ∧
    (∀ p ∈ mems, ∀ e, p.2 = Except.error e →
      (p.1, ([] : List CtxEntry)) ∈ (get_comprehensive_context mems).1) := by
  have h := get_comprehensive_context_aux mems [] []
  rw [get_comprehensive_context, h]
  refine ⟨by simp, by simp, ?_⟩
  intro p hp e he
  simp only [List.nil_append, List.mem_map]
  exact ⟨p, hp, by rw [he]⟩

/-- C5 counterexample: a failing semantic memory is absorbed into a partial
result — the conversation results are returned and `"semantic"` is mapped to
the empty-list placeholder, falsifying "no code path substitutes a
placeholder result for the failing type while returning the other types'
results". -/
theorem comprehensive_partial_cex :
    get_comprehensive_context
        [("conversation", Except.ok [CtxEntry.mk "user" "hi" (some "t") "conversation" none none]),
         ("semantic", Except.error "boom")] =
      ([("conversation", [CtxEntry.mk "user" "hi" (some "t") "conversation" none none]),
        ("semantic", [])],
       ["conversation", "semantic"]) := by
  decide

theorem comprehensive_context_spec_witness :
    (("semantic", (Except.error "boom" : Except String (List CtxEntry))) ∈
      [("conversation", Except.ok [CtxEntry.mk "user" "hi" (some "t") "conversation" none none]),
       ("semantic", (Except.error "boom" : Except String (List CtxEntry)))]) ∧
    ("semantic", ([] : List CtxEntry)) ∈
      (get_comprehensive_context
        [("conversation", Except.ok [CtxEntry.mk "user" "hi" (some "t") "conversation" none none]),
         ("semantic", Except.error "boom")]).1 := by
  refine ⟨by simp, ?_⟩
  exact (comprehensive_context_spec
      [("conversation", Except.ok [CtxEntry.mk "user" "hi" (some "t") "conversation" none none]),
       ("semantic", Except.error "boom")]).2.2
    ("semantic", Except.error "boom") (by simp) "boom" rfl

/-! ## MCP agent error handling (`agent_service.py`, `pages/4_MCP_Agent.py`,
`langchain_helpers.py`)

The ReAct agent's `ainvoke` is an external call whose outcome is an
`Except` parameter. -/

/-- A message of the agent's response; only `content` is read. -/
structure AgentMsg where
  content : String
deriving DecidableEq, Repr

/-- The try block of `ThemeAgent.invoke`: on success, the last message's
content; any raise — including the `IndexError` when the response's message
list is empty — is caught and rendered as an error string. -/
def themeAgentInvoke (resp : Except String (List AgentMsg)) : String :=
  match resp with
  | Except.error e => "❌ Error with AI agent: " ++ e
  | Except.ok msgs =>
    match msgs.getLast? with
    | some m => m.content
    | none => "❌ Error with AI agent: " ++ "list index out of range"

/-- The MCP page's agent-call block: run `get_agent`, then `agent.invoke`;
any exception raised in the block becomes the `"❌ MCP Agent Error: "`
banner string. -/
def mcpAgentBlock {A : Type} (ga : Except String A)
    (inv : A → Except String String) : String :=
  match ga with
  | Except.error e => "❌ MCP Agent Error: " ++ e
  | Except.ok a =>
    match inv a with
    | Except.error e => "❌ MCP Agent Error: " ++ e
    | Except.ok t => t

/-- `MCPHelper.process_mcp_query`: same catch-all pattern. -/
def process_mcp_query (r : Except String String) : String :=
  match r with
  | Except.ok t => t
  | Except.error e => "❌ MCP Agent Error: " ++ e

/-- C6: every exception while processing an MCP message list reaches the
caller as a string — `ThemeAgent.invoke` as `"❌ Error with AI agent: " +
str(e)`, the page's block and `process_mcp_query` as `"❌ MCP Agent Error: "
+ str(e)` — and a successful invocation returns the content of the last
response message. -/
theorem mcp_error_strings {A : Type} (e t : String) (msgs : List AgentMsg)
    (hne : msgs ≠ []) (a : A) (inv : A → Except String String) :
    themeAgentInvoke (Except.error e) = "❌ Error with AI agent: " ++ e ∧
    themeAgentInvoke (Except.ok msgs) = (msgs.getLast hne).content ∧
    mcpAgentBlock (Except.error e) inv = "❌ MCP Agent Error: " ++ e ∧
    mcpAgentBlock (Except.ok a) (fun _ => Except.error e) = "❌ MCP Agent Error: " ++ e ∧
    mcpAgentBlock (Except.ok a) (fun _ => Except.ok t) = t ∧
    process_mcp_query (Except.error e) = "❌ MCP Agent Error: " ++ e ∧
    process_mcp_query (Except.ok t) = t := by
  refine ⟨rfl, ?_, rfl, rfl, rfl, rfl, rfl⟩
  simp [themeAgentInvoke, List.getLast?_eq_getLast msgs hne]

theorem mcp_error_strings_witness :
    ([AgentMsg.mk "hi"] ≠ ([] : List AgentMsg)) ∧
    themeAgentInvoke (Except.ok [AgentMsg.mk "hi"]) = "hi" := by
  have hne : [AgentMsg.mk "hi"] ≠ ([] : List AgentMsg) := by decide
  refine ⟨hne, ?_⟩
  have h := mcp_error_strings "e" "t" [AgentMsg.mk "hi"] hne () (fun _ => Except.ok "t")
  rw [h.2.1]
  rfl

/-- Events in the lifetime of the per-rerun asyncio event loop. -/
inductive LoopEv
  | created
  | ran
  | closed
deriving DecidableEq, Repr

/-- The handler's loop management: `asyncio.new_event_loop()`, a
`run_until_complete` for `get_agent`, on its success a second one for
`agent.invoke`, and a `finally: loop.close()` executed on the normal and on
the raising path before the exception is rendered. -/
def mcpLoopTrace {A : Type} (ga : Except String A)
    (inv : A → Except String String) : List LoopEv × String :=
  match ga with
  | Except.error e =>
      ([LoopEv.created, LoopEv.ran, LoopEv.closed], "❌ MCP Agent Error: " ++ e)
  | Except.ok a =>
    match inv a with
    | Except.error e =>
        ([LoopEv.created, LoopEv.ran, LoopEv.ran, LoopEv.closed],
          "❌ MCP Agent Error: " ++ e)
    | Except.ok t => ([LoopEv.created, LoopEv.ran, LoopEv.ran, LoopEv.closed], t)

/-- C7: on every path — agent obtained or not, invocation raising or not —
exactly one event loop is created, it is created first, only agent calls
run on it, and it is closed exactly once, as the last event. -/
theorem mcp_loop_always_closed {A : Type} (ga : Except String A)
    (inv : A → Except String String) :
    (mcpLoopTrace ga inv).1.count LoopEv.created = 1 ∧
    (mcpLoopTrace ga inv).1.count LoopEv.closed = 1 ∧
    (mcpLoopTrace ga inv).1.head? = some LoopEv.created ∧
    (mcpLoopTrace ga inv).1.getLast? = some LoopEv.closed := by
  rcases ga with e | a
  · exact ⟨rfl, rfl, rfl, rfl⟩
  · rcases h : inv a with e | t <;>
      simp only [mcpLoopTrace, h] <;>
      exact ⟨rfl, rfl, rfl, rfl⟩

/-! ## Per-upload FAISS rebuild (`pages/3_Chat_with_your_Data.py`, main) -/

/-- An uploaded file: Streamlit exposes `name` and the bytes (`content`). -/
structure UploadedFile where
  name : String
  content : String
deriving DecidableEq, Repr

/-- The page's RAG session state: the stored upload list and the compiled
graph (`A` abstracts the compiled app). -/
structure RagSession (A : Type) where
  rag_uploaded_files : List UploadedFile
  rag_app : Option A
deriving DecidableEq, Repr

/-- `CustomDataChatbot.main`'s upload handling: with a non-empty upload
list, rebuild the graph and store the uploads iff the set of uploaded file
names differs from the stored names or no graph exists yet; otherwise leave
the session unchanged.  `build` abstracts `setup_graph`. -/
def handleUploads {A : Type} (build : List UploadedFile → A)
    (st : RagSession A) (uploaded : List UploadedFile) : RagSession A :=
  if uploaded = [] then st
  else
    let current := (uploaded.map UploadedFile.name).toFinset
    let prev := (st.rag_uploaded_files.map UploadedFile.name).toFinset
    if current ≠ prev ∨ st.rag_app.isNone then
      { rag_uploaded_files := uploaded, rag_app := some (build uploaded) }
    else st

/-- C8: with a non-empty upload list the graph is rebuilt iff the uploaded
name set differs from the stored name set or no graph exists; with equal
name sets and an existing graph the session is reused unchanged — in
particular re-uploading a different file under an identical name does not
trigger a rebuild. -/
theorem upload_rebuild_iff {A : Type} (build : List UploadedFile → A)
    (st : RagSession A) (uploaded : List UploadedFile) (h : uploaded ≠ []) :
    (handleUploads build st uploaded =
      if (uploaded.map UploadedFile.name).toFinset ≠
            (st.rag_uploaded_files.map UploadedFile.name).toFinset ∨
          st.rag_app.isNone
       then { rag_uploaded_files := uploaded, rag_app := some (build uploaded) }
       else st) ∧
    (∀ a : A, st.rag_app = some a →
      (uploaded.map UploadedFile.name).toFinset =
          (st.rag_uploaded_files.map UploadedFile.name).toFinset →
      handleUploads build st uploaded = st) ∧
    (∀ f g : UploadedFile, ∀ a : A, f.name = g.name →
      handleUploads build ⟨[f], some a⟩ [g] = ⟨[f], some a⟩) := by
  have h1 : handleUploads build st uploaded =
      if (uploaded.map UploadedFile.name).toFinset ≠
            (st.rag_uploaded_files.map UploadedFile.name).toFinset ∨
          st.rag_app.isNone
      then { rag_uploaded_files := uploaded, rag_app := some (build uploaded) }
      else st := by
    rw [handleUploads, if_neg h]
  refine ⟨h1, ?_, ?_⟩
  · intro a ha heq
    rw [h1, if_neg]
    simp [heq, ha]
  · intro f g a hfg
    rw [handleUploads, if_neg (by simp), if_neg]
    simp [hfg]

theorem upload_rebuild_iff_witness :
    ([UploadedFile.mk "a.pdf" "y"] ≠ ([] : List UploadedFile)) ∧
    handleUploads (fun l => l.length)
        (⟨[UploadedFile.mk "a.pdf" "x"], some 1⟩ : RagSession Nat)
        [UploadedFile.mk "a.pdf" "y"] =
      (⟨[UploadedFile.mk "a.pdf" "x"], some 1⟩ : RagSession Nat) := by
  refine ⟨by decide, ?_⟩
  have h := upload_rebuild_iff (fun l : List UploadedFile => l.length)
    (⟨[UploadedFile.mk "a.pdf" "x"], some 1⟩ : RagSession Nat)
    [UploadedFile.mk "a.pdf" "y"] (by decide)
  exact h.2.2 (UploadedFile.mk "a.pdf" "x") (UploadedFile.mk "a.pdf" "y") 1 rfl

end LLMBootcamp
